import Mathlib

/-!
Verification development for the branching-conversation client core
(TUI front end in `src/app.rs` / `src/frontend/actions.rs`, CLI session
manager in `src/session.rs`, agent tool loop in `src/mcp.rs`).

The Rust code is shallowly embedded: `Vec` becomes `List`, `usize`
becomes `Nat`, `HashMap<String, _>` becomes an association list, and
effects (threads, the HTTP backend, stdin confirmation prompts, the
clock, the file system) become explicit parameters or explicit pieces of
state.  Out-of-range indexing, which panics in Rust, is modelled as a
no-op; every theorem about indexed access carries in-bounds hypotheses,
so the divergence is never exercised.
-/

/-- `listModify l i f` is the embedding of `Vec` mutation through
`get_mut(i)`: apply `f` at index `i`, no-op when `i` is out of range
(`get_mut` returns `None` there). -/
def listModify {α : Type} (l : List α) (i : Nat) (f : α → α) : List α :=
  match l, i with
  | [], _ => []
  | x :: xs, 0 => f x :: xs
  | x :: xs, i + 1 => x :: listModify xs i f

/-- Embedding of Rust `str::split(sep)` over character lists: splitting
the empty string yields one empty part, and every separator occurrence
starts a new part. -/
def splitChar (sep : Char) : List Char → List (List Char)
  | [] => [[]]
  | c :: cs =>
    if c = sep then [] :: splitChar sep cs
    else
      match splitChar sep cs with
      | [] => [[c]]
      | p :: ps => (c :: p) :: ps

/-- `MessageFrom` from `src/app.rs`: who sent the message. -/
inductive MessageFrom where
  | User
  | Assistant
deriving DecidableEq, Repr, Inhabited

/-- `Message` from `src/app.rs`.  The Rust field `from` is a Lean
keyword, hence `from_`. -/
structure Message where
  from_ : MessageFrom
  content : String
deriving DecidableEq, Repr, Inhabited

/-- `Branch` from `src/app.rs`. -/
structure Branch where
  id : Nat
  name : String
  messages : List Message
deriving DecidableEq, Repr, Inhabited

/-- `Session` from `src/app.rs`. -/
structure Session where
  id : String
  title : String
  branches : List Branch
  active_branch : Nat
deriving DecidableEq, Repr, Inhabited

/-- `EditContext` from `src/app.rs`: where a fork-on-edit begins. -/
structure EditContext where
  session_idx : Nat
  branch_idx : Nat
  message_idx : Nat
deriving DecidableEq, Repr, Inhabited

/-- The state-carrying fields of `App` from `src/app.rs`.  Rendering
fields (list selection, hitboxes, clickable areas, the backend channel
handle) carry no conversation state and are omitted. -/
structure App where
  sessions : List Session
  active_idx : Nat
  input : String
  msg_scroll : Nat
  streaming_assistant : Option (Nat × Nat × Nat)
deriving DecidableEq, Repr, Inhabited

/-- The branch stored at `(si, bi)`, defaulting out of range. -/
def App.branchAt (app : App) (si bi : Nat) : Branch :=
  ((app.sessions.getD si default).branches.getD bi default)

/-- The ordered message list of the branch at `(si, bi)`. -/
def App.branchMessages (app : App) (si bi : Nat) : List Message :=
  (app.branchAt si bi).messages

/-- Number of branches of session `si`. -/
def App.branchCount (app : App) (si : Nat) : Nat :=
  (app.sessions.getD si default).branches.length

/-- `App::append_assistant_chunk` (`src/app.rs` lines 218-235): append
the chunk to the message under the live cursor, but only when the
event's `(session_idx, branch_idx)` tag equals the cursor's. -/
def App.append_assistant_chunk (app : App) (session_idx branch_idx : Nat)
    (chunk : String) : App :=
  match app.streaming_assistant with
  | some (s, b, msg_idx) =>
    if s = session_idx ∧ b = branch_idx then
      { app with
        sessions := listModify app.sessions s (fun session =>
          { session with
            branches := listModify session.branches b (fun branch =>
              { branch with
                messages := listModify branch.messages msg_idx (fun m =>
                  { m with content := m.content ++ chunk }) }) }) }
    else app
  | none => app

/-- `App::start_streaming_assistant` (`src/app.rs` lines 238-253): push
an empty assistant message onto the branch and point the cursor at it. -/
def App.start_streaming_assistant (app : App) (session_idx branch_idx : Nat) :
    App :=
  let msg_idx := (app.branchMessages session_idx branch_idx).length
  { app with
    sessions := listModify app.sessions session_idx (fun session =>
      { session with
        branches := listModify session.branches branch_idx (fun branch =>
          { branch with
            messages := branch.messages ++
              [({ from_ := MessageFrom.Assistant, content := "" } : Message)] }) }),
    streaming_assistant := some (session_idx, branch_idx, msg_idx) }

/-- `App::finish_streaming` (`src/app.rs` lines 256-262): clear the
cursor only when the tag still matches it. -/
def App.finish_streaming (app : App) (session_idx branch_idx : Nat) : App :=
  match app.streaming_assistant with
  | some (s, b, _) =>
    if s = session_idx ∧ b = branch_idx then
      { app with streaming_assistant := none }
    else app
  | none => app

/-- `App::next_branch` (`src/app.rs` lines 278-288): advance the active
branch of the active session when possible; the streaming cursor is not
touched. -/
def App.next_branch (app : App) : App :=
  let session := app.sessions.getD app.active_idx default
  if session.branches.isEmpty then app
  else
    let session' :=
      if session.active_branch + 1 < session.branches.length then
        { session with active_branch := session.active_branch + 1 }
      else session
    { app with
      sessions := listModify app.sessions app.active_idx (fun _ => session'),
      msg_scroll := 0 }

/-- `App::prev_branch` (`src/app.rs` lines 265-275). -/
def App.prev_branch (app : App) : App :=
  let session := app.sessions.getD app.active_idx default
  if session.branches.isEmpty then app
  else
    let session' :=
      if 0 < session.active_branch then
        { session with active_branch := session.active_branch - 1 }
      else session
    { app with
      sessions := listModify app.sessions app.active_idx (fun _ => session'),
      msg_scroll := 0 }

/-- `App::new_session` (`src/app.rs` lines 166-184).  `Uuid::new_v4` is
an effect; the fresh id is a parameter. -/
def App.new_session (app : App) (freshId : String) : App :=
  let sessions := app.sessions ++
    [({ id := freshId,
        title := "Session " ++ toString (app.sessions.length + 1),
        branches := [{ id := 0, name := "main", messages := [] }],
        active_branch := 0 } : Session)]
  { app with
    sessions := sessions,
    active_idx := sessions.length - 1,
    msg_scroll := 0 }

/-- `send_user_message_with_streaming` (`src/frontend/actions.rs` lines
47-108), state part: push the user message on the active branch, start
streaming an empty assistant reply there, clear the input box.  The
spawned worker only sends events, modelled separately as chunk/done
operations. -/
def App.send_user_message_with_streaming (app : App) (text : String) : App :=
  let session_idx := app.active_idx
  let branch_idx := (app.sessions.getD session_idx default).active_branch
  let app1 :=
    { app with
      sessions := listModify app.sessions session_idx (fun session =>
        { session with
          branches := listModify session.branches branch_idx (fun branch =>
            { branch with
              messages := branch.messages ++
                [({ from_ := MessageFrom.User, content := text } : Message)] }) }) }
  let app2 := app1.start_streaming_assistant session_idx branch_idx
  { app2 with input := "" }

/-- `fork_and_send_from_edit` (`src/frontend/actions.rs` lines 113-150):
clone the source branch's messages, overwrite the edited message,
truncate after it, push the result as a new branch, make it active, and
start streaming a fresh assistant reply on it (which pushes an empty
placeholder message). -/
def App.fork_and_send_from_edit (app : App) (ctx : EditContext)
    (text : String) : App :=
  let new_branch_idx := app.branchCount ctx.session_idx
  let app1 :=
    { app with
      sessions := listModify app.sessions ctx.session_idx (fun session =>
        let old_branch := session.branches.getD ctx.branch_idx default
        let new_messages := listModify old_branch.messages ctx.message_idx
          (fun m => { m with content := text })
        let new_messages := new_messages.take (ctx.message_idx + 1)
        { session with
          branches := session.branches ++
            [({ id := session.branches.length,
                name := "branch-" ++ toString session.branches.length,
                messages := new_messages } : Branch)],
          active_branch := session.branches.length }) }
  app1.start_streaming_assistant ctx.session_idx new_branch_idx

/-- Stem (file name without the ".json" extension) of the log file
written by `App::save_to_logs` (`src/app.rs` lines 306-319):
`"{session.title}_{branch.name}"`. -/
def logFileStem (title branchName : String) : List Char :=
  title.data ++ '_' :: branchName.data

/-- The persisted form of the active branch produced by
`App::save_to_logs`: the file stem together with the JSON-encoded
`Branch`.  Serde's derived encoding round-trips every field, so the
stored value is the branch itself. -/
def App.save_to_logs_file (app : App) : List Char × Branch :=
  let session := app.sessions.getD app.active_idx default
  let branch := session.branches.getD session.active_branch default
  (logFileStem session.title branch.name, branch)

/-- Per-file body of the `App::load_logs` loop (`src/app.rs` lines
349-381): split the stem on `'_'`, require exactly two parts, take the
first as the session title and the second as the branch name (the
stored branch's name field is overwritten with the latter); any other
number of parts skips the file (`none`). -/
def load_log_file (stem : List Char) (stored : Branch) :
    Option (String × Branch) :=
  match splitChar '_' stem with
  | [t, n] => some (String.mk t, { stored with name := String.mk n })
  | _ => none

/-- `Message` from `src/session.rs` (CLI session manager): role is a
free string there. -/
structure SMessage where
  role : String
  content : String
deriving DecidableEq, Repr, Inhabited

/-- `Session` from `src/session.rs`: one branch of one CLI session. -/
structure SSession where
  id : String
  branch : String
  created_at : Nat
  messages : List SMessage
  summary : Option String
deriving DecidableEq, Repr, Inhabited

/-- `SessionManager` from `src/session.rs`.  The `HashMap<String,
Session>` keyed by branch name is embedded as an association list with
distinct keys; insertion overwrites the existing binding. -/
structure SessionManager where
  current : SSession
  branches : List (String × SSession)
deriving DecidableEq, Repr, Inhabited

/-- `HashMap::get` on the association list. -/
def smLookup (branches : List (String × SSession)) (name : String) :
    Option SSession :=
  (branches.find? (fun p => p.1 = name)).map (fun p => p.2)

/-- `HashMap::remove` on the association list. -/
def smRemove (branches : List (String × SSession)) (name : String) :
    List (String × SSession) :=
  branches.filter (fun p => p.1 ≠ name)

/-- The session file path built by `SessionManager::file_path_for`
(`src/session.rs` lines 61-63): `sessions/{id}_{branch}.json`. -/
def smFilePath (id branch : String) : String :=
  "sessions/" ++ id ++ "_" ++ branch ++ ".json"

/-- `SessionManager::branch_delete` (`src/session.rs` lines 195-236).
The file system is the list of existing file paths; the stdin
confirmation prompt and the clock are the `confirm` and `now`
parameters.  Deleting "main" returns before anything is touched. -/
def branch_delete (sm : SessionManager) (files : List String)
    (name : String) (confirm : Bool) (now : Nat) :
    SessionManager × List String :=
  if name = "main" then (sm, files)
  else if ¬ confirm then (sm, files)
  else
    let branches := smRemove sm.branches name
    let path := smFilePath sm.current.id name
    let files' := files.filter (fun f => f ≠ path)
    if sm.current.branch = name then
      match smLookup branches "main" with
      | some main => ({ current := main, branches := branches }, files')
      | none =>
        let main : SSession :=
          { id := sm.current.id, branch := "main", created_at := now,
            messages := [], summary := none }
        ({ current := main, branches := branches ++ [("main", main)] }, files')
    else ({ current := sm.current, branches := branches }, files')

/-- `SUMMARY_TRIGGER_PAIRS` from `src/session.rs` line 41. -/
def SUMMARY_TRIGGER_PAIRS : Nat := 20

/-- Rust `char::is_whitespace`: the Unicode White_Space property. -/
def isRustWhitespace (c : Char) : Bool :=
  let n := c.toNat
  (0x9 ≤ n ∧ n ≤ 0xD) ∨ n = 0x20 ∨ n = 0x85 ∨ n = 0xA0 ∨ n = 0x1680 ∨
    (0x2000 ≤ n ∧ n ≤ 0x200A) ∨ n = 0x2028 ∨ n = 0x2029 ∨ n = 0x202F ∨
    n = 0x205F ∨ n = 0x3000

/-- Rust `str::trim`: strip leading and trailing Unicode whitespace. -/
def trimRust (s : String) : String :=
  String.mk
    (((s.data.dropWhile isRustWhitespace).reverse.dropWhile
      isRustWhitespace).reverse)

/-- Is the stored summary empty in the sense of
`SessionManager::generate_summary`'s match guard: absent, or blank
after trimming? -/
def summaryIsEmpty : Option String → Bool
  | none => true
  | some old => trimRust old = ""

/-- `SessionManager::generate_summary` (`src/session.rs` lines
424-462), state part.  The backend call is an effect; the streamed
summary text is the `answer` parameter.  A blank answer leaves the
summary untouched; otherwise the summary is set when previously empty
and appended after a `"\n\n---\n"` separator when not. -/
def generate_summary (cur : SSession) (answer : String) : SSession :=
  let summary := trimRust answer
  if summary = "" then cur
  else
    { cur with
      summary :=
        match cur.summary with
        | some old =>
          if trimRust old ≠ "" then some (old ++ "\n\n---\n" ++ summary)
          else some summary
        | none => some summary }

/-- `SessionManager::send_and_stream_llm` (`src/session.rs` lines
364-402), state part: append the streamed assistant answer, then
auto-summarize once `messages.len() / 2` reaches
`SUMMARY_TRIGGER_PAIRS`.  The two backend calls are effects; their
streamed texts are the `answer` and `summaryAnswer` parameters. -/
def send_and_stream_llm (cur : SSession) (answer summaryAnswer : String) :
    SSession :=
  let cur :=
    { cur with
      messages := cur.messages ++
        [({ role := "assistant", content := answer } : SMessage)] }
  let pairs := cur.messages.length / 2
  if pairs ≥ SUMMARY_TRIGGER_PAIRS then generate_summary cur summaryAnswer
  else cur

/-- `normalize_escaped_content` (`src/mcp.rs` lines 253-274) over
character lists: decode the six literal two-character escapes; a
backslash before anything else is kept and the following character is
re-examined by the loop. -/
def normalizeEscapedContentL : List Char → List Char
  | [] => []
  | '\\' :: 'n' :: rest => '\n' :: normalizeEscapedContentL rest
  | '\\' :: 't' :: rest => '\t' :: normalizeEscapedContentL rest
  | '\\' :: 'r' :: rest => '\r' :: normalizeEscapedContentL rest
  | '\\' :: '\\' :: rest => '\\' :: normalizeEscapedContentL rest
  | '\\' :: '"' :: rest => '"' :: normalizeEscapedContentL rest
  | '\\' :: '\'' :: rest => '\'' :: normalizeEscapedContentL rest
  | '\\' :: c :: rest => '\\' :: normalizeEscapedContentL (c :: rest)
  | c :: rest => c :: normalizeEscapedContentL rest

/-- `normalize_escaped_content` on strings. -/
def normalize_escaped_content (s : String) : String :=
  String.mk (normalizeEscapedContentL s.data)

/-- Modelled from the spec ("content is first unescaped (literal
`\n`, `\t`, `\r`, `\\`, `\"`, `\'` sequences converted to real
characters) ... every other character preserved"): the escape table of
the six recognized two-character sequences. -/
def specEscapeMap (c : Char) : Option Char :=
  if c = 'n' then some '\n'
  else if c = 't' then some '\t'
  else if c = 'r' then some '\r'
  else if c = '\\' then some '\\'
  else if c = '"' then some '"'
  else if c = '\'' then some '\''
  else none

/-- Modelled from the spec: unescaping as §4.4 words it — each literal
two-character escape sequence becomes the corresponding real character,
every other character is preserved unchanged in order. -/
def specUnescape : List Char → List Char
  | [] => []
  | '\\' :: c :: rest =>
    match specEscapeMap c with
    | some r => r :: specUnescape rest
    | none => '\\' :: specUnescape (c :: rest)
  | c :: rest => c :: specUnescape rest

/-- Parsed tool call (`ToolCall` from `src/mcp.rs`). -/
structure ToolCall where
  name : String
  path : Option String
  content : Option String
deriving DecidableEq, Repr, Inhabited

/-- The file system visible to the tool executor: an association list
from path to contents; at most one entry per path. -/
def FileSys := List (String × String)

/-- Contents at `path`, if the file exists. -/
def fsRead (fs : FileSys) (path : String) : Option String :=
  (List.find? (fun p => p.1 = path) fs).map (fun p => p.2)

/-- `std::fs::write`: create or truncate, so the new contents replace
whatever was there. -/
def fsWrite (fs : FileSys) (path data : String) : FileSys :=
  (path, data) :: List.filter (fun p => p.1 ≠ path) fs

/-- Result of `execute_mcp` (`src/mcp.rs` lines 197-249): the textual
tool result and the file system after the call, or the error text.
`shell.run` spawns a process; its captured output is the `shell`
parameter. -/
def execute_mcp (tool : ToolCall) (fs : FileSys)
    (shell : String → String × String) : Except String (String × FileSys) :=
  if tool.name = "filesystem.read" then
    match tool.path with
    | none => Except.error "Missing path for filesystem.read"
    | some path =>
      match fsRead fs path with
      | none => Except.error "No such file"
      | some content =>
        Except.ok ("Read file '" ++ path ++ "' (" ++
          toString content.length ++ " bytes). Content:\n" ++ content, fs)
  else if tool.name = "filesystem.write" then
    match tool.path with
    | none => Except.error "Missing path for filesystem.write"
    | some path =>
      match tool.content with
      | none => Except.error "Missing content for filesystem.write"
      | some data_raw =>
        let data := normalize_escaped_content data_raw
        Except.ok ("Wrote " ++ toString data.length ++ " bytes to '" ++
          path ++ "'.", fsWrite fs path data)
  else if tool.name = "shell.run" then
    match tool.content with
    | none => Except.error "Missing 'content' for shell.run (expected shell command)"
    | some command =>
      let out := shell command
      Except.ok ("Command `" ++ command ++ "` executed.\nSTDOUT:\n" ++
        out.1 ++ "\nSTDERR:\n" ++ out.2, fs)
  else Except.error ("Unknown MCP tool: " ++ tool.name)

/-- One event or user action hitting the single-threaded state owner,
for the sibling-branch non-interference property.  Effect inputs
(fresh ids) are carried in the constructor. -/
inductive Op where
  | userSend (text : String)
  | chunk (session_idx branch_idx : Nat) (text : String)
  | done (session_idx branch_idx : Nat)
  | forkEdit (ctx : EditContext) (text : String)
  | startStream (session_idx branch_idx : Nat)
  | nextBranch
  | prevBranch
  | newSession (freshId : String)
deriving DecidableEq, Repr

/-- Interpretation of one operation on the app state. -/
def applyOp (app : App) : Op → App
  | Op.userSend text => app.send_user_message_with_streaming text
  | Op.chunk s b text => app.append_assistant_chunk s b text
  | Op.done s b => app.finish_streaming s b
  | Op.forkEdit ctx text => app.fork_and_send_from_edit ctx text
  | Op.startStream s b => app.start_streaming_assistant s b
  | Op.nextBranch => app.next_branch
  | Op.prevBranch => app.prev_branch
  | Op.newSession freshId => app.new_session freshId

/-- Run a list of operations left to right. -/
def applyOps (app : App) (ops : List Op) : App :=
  ops.foldl applyOp app

/-- Does this operation, executed in state `app`, address branch
`(si, bi)`?  `userSend` and `startStream` write to their target branch;
a `chunk` writes (at most) to the branch its tag names; `done`, branch
switches, new sessions and fork-edits never write into an existing
branch's message list. -/
def opTouches (app : App) (op : Op) (si bi : Nat) : Bool :=
  match op with
  | Op.userSend _ =>
    app.active_idx = si ∧
      (app.sessions.getD app.active_idx default).active_branch = bi
  | Op.chunk s b _ => s = si ∧ b = bi
  | Op.startStream s b => s = si ∧ b = bi
  | _ => false

/-- All operations of the list, run in sequence, leave branch
`(si, bi)` alone. -/
def avoidsAll (app : App) (ops : List Op) (si bi : Nat) : Bool :=
  match ops with
  | [] => true
  | op :: ops => !opTouches app op si bi && avoidsAll (applyOp app op) ops si bi

/-- JSON values as parsed by `serde_json::from_str::<Value>` on the
`params` capture.  Numbers are kept as their lexemes: the repo only
ever reads string fields out of the value, so the numeric value itself
is never consumed. -/
inductive Json where
  | null
  | bool (b : Bool)
  | num (lexeme : List Char)
  | str (s : List Char)
  | arr (elems : List Json)
  | obj (kvs : List (List Char × Json))
deriving Inhabited

/-- JSON insignificant whitespace (RFC 8259 / serde_json): space, tab,
line feed, carriage return. -/
def isJsonWs (c : Char) : Bool :=
  c = ' ' ∨ c = '\t' ∨ c = '\n' ∨ c = '\r'

/-- Skip JSON whitespace. -/
def skipJsonWs (l : List Char) : List Char :=
  l.dropWhile isJsonWs

/-- Value of one hex digit. -/
def hexVal (c : Char) : Option Nat :=
  if '0' ≤ c ∧ c ≤ '9' then some (c.toNat - '0'.toNat)
  else if 'a' ≤ c ∧ c ≤ 'f' then some (c.toNat - 'a'.toNat + 10)
  else if 'A' ≤ c ∧ c ≤ 'F' then some (c.toNat - 'A'.toNat + 10)
  else none

/-- Four hex digits of a `\u` escape. -/
def parseHex4 : List Char → Option (Nat × List Char)
  | c1 :: c2 :: c3 :: c4 :: rest => do
    let h1 ← hexVal c1
    let h2 ← hexVal c2
    let h3 ← hexVal c3
    let h4 ← hexVal c4
    pure (((h1 * 16 + h2) * 16 + h3) * 16 + h4, rest)
  | _ => none

/-- Body of a JSON string after the opening quote, as serde_json reads
it: raw control characters are rejected, the eight simple escapes and
`\uXXXX` (with mandatory surrogate pairing) are decoded, and the
closing quote ends the string. -/
def parseJsonString : List Char → Option (List Char × List Char)
  | [] => none
  | '"' :: rest => some ([], rest)
  | '\\' :: '"' :: rest => (parseJsonString rest).map (fun p => ('"' :: p.1, p.2))
  | '\\' :: '\\' :: rest => (parseJsonString rest).map (fun p => ('\\' :: p.1, p.2))
  | '\\' :: '/' :: rest => (parseJsonString rest).map (fun p => ('/' :: p.1, p.2))
  | '\\' :: 'b' :: rest => (parseJsonString rest).map (fun p => ('\x08' :: p.1, p.2))
  | '\\' :: 'f' :: rest => (parseJsonString rest).map (fun p => ('\x0c' :: p.1, p.2))
  | '\\' :: 'n' :: rest => (parseJsonString rest).map (fun p => ('\n' :: p.1, p.2))
  | '\\' :: 'r' :: rest => (parseJsonString rest).map (fun p => ('\r' :: p.1, p.2))
  | '\\' :: 't' :: rest => (parseJsonString rest).map (fun p => ('\t' :: p.1, p.2))
  | '\\' :: 'u' :: c1 :: c2 :: c3 :: c4 :: '\\' :: 'u' :: d1 :: d2 :: d3 :: d4 :: rest =>
    match hexVal c1, hexVal c2, hexVal c3, hexVal c4 with
    | some h1, some h2, some h3, some h4 =>
      let n := ((h1 * 16 + h2) * 16 + h3) * 16 + h4
      if 0xDC00 ≤ n ∧ n ≤ 0xDFFF then none
      else if 0xD800 ≤ n ∧ n ≤ 0xDBFF then
        match hexVal d1, hexVal d2, hexVal d3, hexVal d4 with
        | some g1, some g2, some g3, some g4 =>
          let n2 := ((g1 * 16 + g2) * 16 + g3) * 16 + g4
          if 0xDC00 ≤ n2 ∧ n2 ≤ 0xDFFF then
            let code := 0x10000 + (n - 0xD800) * 0x400 + (n2 - 0xDC00)
            (parseJsonString rest).map (fun p => (Char.ofNat code :: p.1, p.2))
          else none
        | _, _, _, _ => none
      else
        (parseJsonString ('\\' :: 'u' :: d1 :: d2 :: d3 :: d4 :: rest)).map
          (fun p => (Char.ofNat n :: p.1, p.2))
    | _, _, _, _ => none
  | '\\' :: 'u' :: c1 :: c2 :: c3 :: c4 :: rest =>
    match hexVal c1, hexVal c2, hexVal c3, hexVal c4 with
    | some h1, some h2, some h3, some h4 =>
      let n := ((h1 * 16 + h2) * 16 + h3) * 16 + h4
      if 0xD800 ≤ n ∧ n ≤ 0xDFFF then none
      else (parseJsonString rest).map (fun p => (Char.ofNat n :: p.1, p.2))
    | _, _, _, _ => none
  | '\\' :: _ => none
  | c :: rest =>
    if c.toNat < 0x20 then none
    else (parseJsonString rest).map (fun p => (c :: p.1, p.2))

/-- Decimal digit test. -/
def isDigitChar (c : Char) : Bool := '0' ≤ c ∧ c ≤ '9'

/-- JSON number lexeme after an optional leading minus has been noted:
`0 | [1-9][0-9]*`, then optional `.[0-9]+`, then optional
`[eE][+-]?[0-9]+`.  Returns the consumed characters and the rest.
serde_json additionally rejects decimal literals whose magnitude
overflows an `f64` (e.g. `1e999`); that range check is not modelled. -/
def parseJsonNumberTail (l : List Char) : Option (List Char × List Char) :=
  let intPart : Option (List Char × List Char) :=
    match l with
    | '0' :: rest => some (['0'], rest)
    | c :: rest =>
      if isDigitChar c ∧ c ≠ '0' then
        let (ds, rest') := rest.span isDigitChar
        some (c :: ds, rest')
      else none
    | [] => none
  match intPart with
  | none => none
  | some (ip, rest) =>
    let fracPart : Option (List Char × List Char) :=
      match rest with
      | '.' :: rest' =>
        let (ds, rest'') := rest'.span isDigitChar
        if ds = [] then none else some ('.' :: ds, rest'')
      | _ => some ([], rest)
    match fracPart with
    | none => none
    | some (fp, rest) =>
      let expPart : Option (List Char × List Char) :=
        match rest with
        | c :: rest' =>
          if c = 'e' ∨ c = 'E' then
            let (sgn, rest'') :=
              match rest' with
              | s :: r => if s = '+' ∨ s = '-' then ([s], r) else ([], rest')
              | [] => ([], rest')
            let (ds, rest3) := rest''.span isDigitChar
            if ds = [] then none else some (c :: sgn ++ ds, rest3)
          else some ([], rest)
        | [] => some ([], rest)
      match expPart with
      | none => none
      | some (ep, rest) => some (ip ++ fp ++ ep, rest)

/-- Insert into the object map as `BTreeMap::insert` does: a duplicate
key overwrites the earlier value. -/
def objInsert (kvs : List (List Char × Json)) (k : List Char) (v : Json) :
    List (List Char × Json) :=
  if kvs.any (fun p => p.1 = k) then
    kvs.map (fun p => if p.1 = k then (k, v) else p)
  else kvs ++ [(k, v)]

mutual

/-- One JSON value (fuelled recursion; the top level passes ample
fuel). -/
def parseJsonValue : Nat → List Char → Option (Json × List Char)
  | 0, _ => none
  | fuel + 1, l =>
    match skipJsonWs l with
    | 'n' :: 'u' :: 'l' :: 'l' :: rest => some (Json.null, rest)
    | 't' :: 'r' :: 'u' :: 'e' :: rest => some (Json.bool true, rest)
    | 'f' :: 'a' :: 'l' :: 's' :: 'e' :: rest => some (Json.bool false, rest)
    | '"' :: rest =>
      (parseJsonString rest).map (fun p => (Json.str p.1, p.2))
    | '-' :: rest =>
      (parseJsonNumberTail rest).map (fun p => (Json.num ('-' :: p.1), p.2))
    | '\x7b' :: rest =>
      (match skipJsonWs rest with
       | '\x7d' :: rest' => some (Json.obj [], rest')
       | rest' => parseJsonMembers fuel rest' [])
    | '[' :: rest =>
      (match skipJsonWs rest with
       | ']' :: rest' => some (Json.arr [], rest')
       | rest' => parseJsonElems fuel rest' [])
    | l' =>
      (parseJsonNumberTail l').map (fun p => (Json.num p.1, p.2))

/-- Members of an object, positioned at the start of a key string. -/
def parseJsonMembers : Nat → List Char → List (List Char × Json) →
    Option (Json × List Char)
  | 0, _, _ => none
  | fuel + 1, l, acc =>
    match l with
    | '"' :: rest =>
      match parseJsonString rest with
      | none => none
      | some (key, rest) =>
        match skipJsonWs rest with
        | ':' :: rest =>
          match parseJsonValue fuel rest with
          | none => none
          | some (v, rest) =>
            let acc := objInsert acc key v
            match skipJsonWs rest with
            | ',' :: rest => parseJsonMembers fuel (skipJsonWs rest) acc
            | '\x7d' :: rest => some (Json.obj acc, rest)
            | _ => none
        | _ => none
    | _ => none

/-- Elements of an array, positioned at the start of a value. -/
def parseJsonElems : Nat → List Char → List Json → Option (Json × List Char)
  | 0, _, _ => none
  | fuel + 1, l, acc =>
    match parseJsonValue fuel l with
    | none => none
    | some (v, rest) =>
      let acc := acc ++ [v]
      match skipJsonWs rest with
      | ',' :: rest => parseJsonElems fuel rest acc
      | ']' :: rest => some (Json.arr acc, rest)
      | _ => none

end

/-- `serde_json::from_str::<Value>`: one value, then nothing but
whitespace to the end of the input. -/
def jsonParse (l : List Char) : Option Json :=
  match parseJsonValue (4 * l.length + 16) l with
  | some (j, rest) => if skipJsonWs rest = [] then some j else none
  | none => none

/-- `Value::get(key)` followed by `as_str()`: a string field of a
top-level object, and nothing otherwise. -/
def jGetStr (j : Json) (key : List Char) : Option String :=
  match j with
  | Json.obj kvs =>
    match (kvs.find? (fun p => p.1 = key)).map (fun p => p.2) with
    | some (Json.str s) => some (String.mk s)
    | _ => none
  | _ => none

/-- The `\s` character class of the Rust regex crate: Unicode
White_Space. -/
def isRegexWs (c : Char) : Bool :=
  let n := c.toNat
  (0x9 ≤ n ∧ n ≤ 0xD) ∨ n = 0x20 ∨ n = 0x85 ∨ n = 0xA0 ∨ n = 0x1680 ∨
    (0x2000 ≤ n ∧ n ≤ 0x200A) ∨ n = 0x2028 ∨ n = 0x2029 ∨ n = 0x202F ∨
    n = 0x205F ∨ n = 0x3000

/-- Match a literal character, returning the rest. -/
def dropChar (c : Char) : List Char → Option (List Char)
  | x :: xs => if x = c then some xs else none
  | [] => none

/-- Match a literal string, returning the rest. -/
def dropLit : List Char → List Char → Option (List Char)
  | [], l => some l
  | c :: cs, x :: xs => if x = c then dropLit cs xs else none
  | _ :: _, [] => none

/-- `\s+` before a literal that starts with a non-whitespace character:
at least one whitespace character, then the maximal run (the regex's
greedy run is forced here, since stopping early would pit a whitespace
character against the following literal). -/
def ws1 : List Char → Option (List Char)
  | c :: rest => if isRegexWs c then some (rest.dropWhile isRegexWs) else none
  | [] => none

/-- `\s*/?>` — the closing of every `<use_tool .../>` pattern: optional
whitespace, an optional slash, and the mandatory `>`.  The regex match
ends at the `>`; anything may follow. -/
def tailCloseOk (l : List Char) : Bool :=
  match l.dropWhile isRegexWs with
  | '/' :: '>' :: _ => true
  | '>' :: _ => true
  | _ => false

/-- The lazy group `(\{.*?\})\s*/?>` of `re_full` after its opening
brace, `(?s)` making `.` match newlines: the shortest run of characters
whose following `}` is in turn followed by `\s*/?>`.  Returns the run
(the group's content between the braces). -/
def lazyParams : List Char → Option (List Char)
  | [] => none
  | c :: rest =>
    if c = '\x7d' ∧ tailCloseOk rest then some []
    else (lazyParams rest).map (fun cs => c :: cs)

/-- The shared opening `<use_tool\s+name="` of all four patterns. -/
def matchTagOpen (l : List Char) : Option (List Char) := do
  let l ← dropLit "<use_tool".data l
  let l ← ws1 l
  let l ← dropLit "name=".data l
  dropChar '"' l

/-- The shared `<use_tool\s+name="TOOL"\s+params=\{` opening of the
three fallback patterns (their tool name is a fixed literal). -/
def matchTagHeader (toolName : List Char) (l : List Char) :
    Option (List Char) := do
  let l ← matchTagOpen l
  let l ← dropLit toolName l
  let l ← dropChar '"' l
  let l ← ws1 l
  let l ← dropLit "params=".data l
  dropChar '\x7b' l

/-- `\s*"KEY":\s*"` — position the scanner at the start of the quoted
value of the given literal key. -/
def matchKeyQuote (key : List Char) (l : List Char) : Option (List Char) := do
  let l ← dropChar '"' (l.dropWhile isRegexWs)
  let l ← dropLit key l
  let l ← dropChar '"' l
  let l ← dropChar ':' l
  dropChar '"' (l.dropWhile isRegexWs)

/-- `([^"]*)"` — capture up to the closing quote of the value (the
caller checks non-emptiness where the class is `[^"]+`). -/
def captureToQuote (l : List Char) : Option (List Char × List Char) :=
  let p := l.span (fun c => c ≠ '"')
  (dropChar '"' p.2).map (fun rest => (p.1, rest))

/-- `\s*\}` — the closing brace of the fallback patterns' params. -/
def closeBrace (l : List Char) : Option (List Char) :=
  dropChar '\x7d' (l.dropWhile isRegexWs)

/-- The primary pattern `re_full` (`src/mcp.rs` line 140),
`(?s)<use_tool\s+name="([^"]+)"\s+params=(\{.*?\})\s*/?>`, anchored at
the start of `l`: yields the two captures, the tool name and the params
text including its braces. -/
def matchFullAt (l : List Char) : Option (List Char × List Char) := do
  let l ← matchTagOpen l
  let (name, l) ← captureToQuote l
  if name = [] then none else do
  let l ← ws1 l
  let l ← dropLit "params=".data l
  let l ← dropChar '\x7b' l
  let content ← lazyParams l
  pure (name, '\x7b' :: content ++ ['\x7d'])

/-- The fallback pattern `re_read` (`src/mcp.rs` lines 155-157),
anchored at the start of `l`: yields the path capture. -/
def matchReadAt (l : List Char) : Option (List Char) := do
  let l ← matchTagHeader "filesystem.read".data l
  let l ← matchKeyQuote "path".data l
  let (path, l) ← captureToQuote l
  if path = [] then none else do
  let l ← closeBrace l
  if tailCloseOk l then pure path else none

/-- The fallback pattern `re_write` (`src/mcp.rs` lines 168-170),
anchored at the start of `l`: yields the path and content captures (the
content may be empty: its class is `[^"]*`). -/
def matchWriteAt (l : List Char) : Option (List Char × List Char) := do
  let l ← matchTagHeader "filesystem.write".data l
  let l ← matchKeyQuote "path".data l
  let (path, l) ← captureToQuote l
  if path = [] then none else do
  let l ← dropChar ',' (l.dropWhile isRegexWs)
  let l ← matchKeyQuote "content".data l
  let (content, l) ← captureToQuote l
  let l ← closeBrace l
  if tailCloseOk l then pure (path, content) else none

/-- The fallback pattern `re_shell` (`src/mcp.rs` lines 181-183),
anchored at the start of `l`: yields the command capture. -/
def matchShellAt (l : List Char) : Option (List Char) := do
  let l ← matchTagHeader "shell.run".data l
  let l ← matchKeyQuote "content".data l
  let (cmd, l) ← captureToQuote l
  if cmd = [] then none else do
  let l ← closeBrace l
  if tailCloseOk l then pure cmd else none

/-- `Regex::captures`: try the anchored matcher at position 0, 1, 2,
..., and return the first (leftmost) success together with its start
position. -/
def findAt {α : Type} (m : List Char → Option α) : List Char → Option (Nat × α)
  | [] =>
    match m [] with
    | some a => some (0, a)
    | none => none
  | l@(_ :: rest) =>
    match m l with
    | some a => some (0, a)
    | none => (findAt m rest).map (fun p => (p.1 + 1, p.2))

/-- `parse_tool_use` (`src/mcp.rs` lines 138-194): try the primary
pattern's leftmost match and honor it when its params parse as JSON;
otherwise fall back to the read, then write, then shell pattern, each
at its own leftmost match anywhere in the output. -/
def parse_tool_use (output : List Char) : Option ToolCall :=
  let fb : Option ToolCall :=
    match findAt matchReadAt output with
    | some (_, path) =>
      some { name := "filesystem.read", path := some (String.mk path),
             content := none }
    | none =>
      match findAt matchWriteAt output with
      | some (_, path, content) =>
        some { name := "filesystem.write", path := some (String.mk path),
               content := some (String.mk content) }
      | none =>
        match findAt matchShellAt output with
        | some (_, cmd) =>
          some { name := "shell.run", path := none,
                 content := some (String.mk cmd) }
        | none => none
  match findAt matchFullAt output with
  | some (_, name, params) =>
    match jsonParse params with
    | some j =>
      some { name := String.mk name, path := jGetStr j "path".data,
             content := jGetStr j "content".data }
    | none => fb
  | none => fb

/-- Content of message `mi` of branch `(si, bi)`. -/
def App.msgContent (app : App) (si bi mi : Nat) : String :=
  ((app.branchMessages si bi).getD mi default).content

/-- The guard of `append_assistant_chunk`: does a live cursor exist and
carry exactly this `(session, branch)` tag? -/
def cursorMatches (cur : Option (Nat × Nat × Nat)) (s b : Nat) : Bool :=
  match cur with
  | some (s', b', _) => s' = s ∧ b' = b
  | none => false

/-- Fold a chunk sequence tagged `(s, b)` into the app, in emission
order: the per-tick drain of `AssistantChunk` events from one worker. -/
def applyChunks (app : App) (s b : Nat) (cs : List String) : App :=
  cs.foldl (fun a c => a.append_assistant_chunk s b c) app

/-- A two-message "main" branch: Scenario A's starting state. -/
def exMainBranch : Branch :=
  { id := 0, name := "main",
    messages := [{ from_ := MessageFrom.User, content := "hi" },
                 { from_ := MessageFrom.Assistant, content := "hello" }] }

/-- One session holding only `exMainBranch`. -/
def exApp : App :=
  { sessions := [{ id := "s0", title := "Session 1",
                   branches := [exMainBranch], active_branch := 0 }],
    active_idx := 0, input := "", msg_scroll := 0,
    streaming_assistant := none }

/-- Scenario D's starting state: session 0 streams into branch 0
(message 1) while a second branch exists to switch to. -/
def exAppStreaming : App :=
  { sessions := [{ id := "s0", title := "Session 1",
                   branches :=
                     [{ id := 0, name := "main",
                        messages := [{ from_ := MessageFrom.User, content := "hi" },
                                     { from_ := MessageFrom.Assistant, content := "" }] },
                      { id := 1, name := "branch-1",
                        messages := [{ from_ := MessageFrom.User, content := "other" }] }],
                   active_branch := 0 }],
    active_idx := 0, input := "", msg_scroll := 0,
    streaming_assistant := some (0, 0, 1) }

/-- A model answer with two tagged regions: first a shell call whose
params fail JSON parsing (the `\x` is not a valid JSON escape), then a
well-formed read call. -/
def exToolOutput : String :=
  "<use_tool name=\"shell.run\" params=\x7b\"content\": \"echo \\x\"\x7d /> and then <use_tool name=\"filesystem.read\" params=\x7b\"path\": \"a.txt\"\x7d />"

/-- A branch whose name contains the `'_'` filename separator. -/
def exUnderscoreBranch : Branch :=
  { id := 1, name := "a_b",
    messages := [{ from_ := MessageFrom.User, content := "hi" }] }

/-- A CLI branch one message short of the 20-pair summary trigger. -/
def exSession39 : SSession :=
  { id := "1700000000", branch := "main", created_at := 0,
    messages := List.replicate 39 { role := "user", content := "m" },
    summary := none }

theorem length_listModify {α : Type} (l : List α) (i : Nat) (f : α → α) :
    (listModify l i f).length = l.length := by
  induction l generalizing i with
  | nil => rfl
  | cons x xs ih =>
    cases i with
    | zero => rfl
    | succ j => simp [listModify, ih]

theorem listModify_oob {α : Type} (l : List α) (i : Nat) (f : α → α)
    (h : l.length ≤ i) : listModify l i f = l := by
  induction l generalizing i with
  | nil => rfl
  | cons x xs ih =>
    cases i with
    | zero => simp at h
    | succ j =>
      simp only [List.length_cons, Nat.succ_le_succ_iff] at h
      simp [listModify, ih j h]

theorem getD_listModify_ne {α : Type} (l : List α) (i j : Nat) (f : α → α)
    (d : α) (h : i ≠ j) : (listModify l i f).getD j d = l.getD j d := by
  induction l generalizing i j with
  | nil => rfl
  | cons x xs ih =>
    cases i with
    | zero =>
      cases j with
      | zero => exact absurd rfl h
      | succ j' => rfl
    | succ i' =>
      cases j with
      | zero => rfl
      | succ j' =>
        simp only [listModify, List.getD_cons_succ]
        exact ih i' j' (by omega)

theorem getD_listModify_self {α : Type} (l : List α) (i : Nat) (f : α → α)
    (d : α) (h : i < l.length) :
    (listModify l i f).getD i d = f (l.getD i d) := by
  induction l generalizing i with
  | nil => simp at h
  | cons x xs ih =>
    cases i with
    | zero => rfl
    | succ i' =>
      simp only [listModify, List.getD_cons_succ]
      exact ih i' (by simpa using h)

theorem take_listModify {α : Type} (l : List α) (i j : Nat) (f : α → α)
    (h : j ≤ i) : (listModify l i f).take j = l.take j := by
  induction l generalizing i j with
  | nil => rfl
  | cons x xs ih =>
    cases i with
    | zero =>
      cases j with
      | zero => rfl
      | succ j' => omega
    | succ i' =>
      cases j with
      | zero => rfl
      | succ j' => simp [listModify, ih i' j' (by omega)]

theorem getD_append_lt {α : Type} (l l' : List α) (j : Nat) (d : α)
    (h : j < l.length) : (l ++ l').getD j d = l.getD j d := by
  induction l generalizing j with
  | nil => simp at h
  | cons x xs ih =>
    cases j with
    | zero => rfl
    | succ j' =>
      simp only [List.cons_append, List.getD_cons_succ]
      exact ih j' (by simpa using h)

theorem getD_append_len {α : Type} (l : List α) (x : α) (j : Nat) (d : α)
    (h : j = l.length) : (l ++ [x]).getD j d = x := by
  subst h
  induction l with
  | nil => rfl
  | cons y ys ih => simp [ih]

theorem getD_take {α : Type} (l : List α) (n j : Nat) (d : α)
    (h : j < n) : (l.take n).getD j d = l.getD j d := by
  induction l generalizing n j with
  | nil => simp
  | cons x xs ih =>
    cases n with
    | zero => omega
    | succ n' =>
      cases j with
      | zero => rfl
      | succ j' =>
        simp only [List.take_succ_cons, List.getD_cons_succ]
        exact ih n' j' (by omega)

theorem getD_listModify {α : Type} (l : List α) (i j : Nat) (f : α → α)
    (d : α) :
    (listModify l i f).getD j d =
      if i = j ∧ j < l.length then f (l.getD j d) else l.getD j d := by
  by_cases hij : i = j
  · subst hij
    by_cases hb : i < l.length
    · rw [if_pos ⟨rfl, hb⟩, getD_listModify_self l i f d hb]
    · rw [if_neg (fun hh => hb hh.2), listModify_oob l i f (by omega)]
  · rw [if_neg (fun hh => hij hh.1), getD_listModify_ne l i j f d hij]

theorem append_chunk_stale (app : App) (s b : Nat) (c : String)
    (h : cursorMatches app.streaming_assistant s b = false) :
    app.append_assistant_chunk s b c = app := by
  cases hcur : app.streaming_assistant with
  | none => simp [App.append_assistant_chunk, hcur]
  | some t =>
    obtain ⟨s', b', m'⟩ := t
    rw [hcur] at h
    have hne : ¬ (s' = s ∧ b' = b) := by
      simpa [cursorMatches] using h
    simp [App.append_assistant_chunk, hcur, hne]

theorem streaming_append_chunk (app : App) (s b : Nat) (c : String) :
    (app.append_assistant_chunk s b c).streaming_assistant =
      app.streaming_assistant := by
  cases hcur : app.streaming_assistant with
  | none => simp [App.append_assistant_chunk, hcur]
  | some t =>
    obtain ⟨s', b', m'⟩ := t
    by_cases h : s' = s ∧ b' = b <;>
      simp [App.append_assistant_chunk, hcur, h]

theorem sessions_length_append_chunk (app : App) (s b : Nat) (c : String) :
    (app.append_assistant_chunk s b c).sessions.length =
      app.sessions.length := by
  cases hcur : app.streaming_assistant with
  | none => simp [App.append_assistant_chunk, hcur]
  | some t =>
    obtain ⟨s', b', m'⟩ := t
    by_cases h : s' = s ∧ b' = b <;>
      simp [App.append_assistant_chunk, hcur, h, length_listModify]

theorem branchCount_append_chunk (app : App) (s b : Nat) (c : String)
    (si : Nat) :
    (app.append_assistant_chunk s b c).branchCount si =
      app.branchCount si := by
  cases hcur : app.streaming_assistant with
  | none => simp [App.append_assistant_chunk, hcur]
  | some t =>
    obtain ⟨s', b', m'⟩ := t
    by_cases h : s' = s ∧ b' = b
    · simp only [App.append_assistant_chunk, hcur, h, and_self, if_true,
        App.branchCount, getD_listModify]
      split_ifs with h2
      · simp [length_listModify]
      · rfl
    · simp [App.append_assistant_chunk, hcur, h]

theorem branchMessages_append_chunk_ne (app : App) (s b : Nat) (c : String)
    (si bi : Nat) (hne : ¬ (s = si ∧ b = bi)) :
    (app.append_assistant_chunk s b c).branchMessages si bi =
      app.branchMessages si bi := by
  cases hcur : app.streaming_assistant with
  | none => simp [App.append_assistant_chunk, hcur]
  | some t =>
    obtain ⟨s', b', m'⟩ := t
    by_cases h : s' = s ∧ b' = b
    · obtain ⟨h1, h2⟩ := h
      subst h1; subst h2
      simp only [App.append_assistant_chunk, hcur, and_self, if_true,
        App.branchMessages, App.branchAt, getD_listModify]
      split_ifs with hs
      · obtain ⟨hs1, _⟩ := hs
        subst hs1
        have hbne : ¬ (b' = bi) := fun hb => hne ⟨rfl, hb⟩
        simp only [getD_listModify]
        rw [if_neg (fun hh => hbne hh.1)]
      · rfl
    · simp [App.append_assistant_chunk, hcur, h]

theorem branchMessages_length_append_chunk (app : App) (s b : Nat)
    (c : String) (si bi : Nat) :
    ((app.append_assistant_chunk s b c).branchMessages si bi).length =
      (app.branchMessages si bi).length := by
  cases hcur : app.streaming_assistant with
  | none => simp [App.append_assistant_chunk, hcur]
  | some t =>
    obtain ⟨s', b', m'⟩ := t
    by_cases h : s' = s ∧ b' = b
    · simp only [App.append_assistant_chunk, hcur, h, and_self, if_true,
        App.branchMessages, App.branchAt, getD_listModify]
      split_ifs with h1
      · simp only [getD_listModify]
        split_ifs with h2
        · simp [length_listModify]
        · rfl
      · rfl
    · simp [App.append_assistant_chunk, hcur, h]

theorem msgContent_append_chunk (app : App) (s b m : Nat) (c : String)
    (hcur : app.streaming_assistant = some (s, b, m))
    (hs : s < app.sessions.length) (hb : b < app.branchCount s)
    (hm : m < (app.branchMessages s b).length) :
    (app.append_assistant_chunk s b c).msgContent s b m =
      app.msgContent s b m ++ c := by
  simp only [App.branchCount] at hb
  simp only [App.branchMessages, App.branchAt] at hm
  have hstep : app.append_assistant_chunk s b c =
      { app with
        sessions := listModify app.sessions s (fun session =>
          { session with
            branches := listModify session.branches b (fun branch =>
              { branch with
                messages := listModify branch.messages m (fun msg =>
                  { msg with content := msg.content ++ c }) }) }) } := by
    simp [App.append_assistant_chunk, hcur]
  unfold App.msgContent App.branchMessages App.branchAt
  rw [hstep]
  rw [getD_listModify, if_pos ⟨rfl, hs⟩]
  rw [getD_listModify, if_pos ⟨rfl, hb⟩]
  rw [getD_listModify, if_pos ⟨rfl, hm⟩]

theorem streaming_start_streaming (app : App) (s b : Nat) :
    (app.start_streaming_assistant s b).streaming_assistant =
      some (s, b, (app.branchMessages s b).length) := rfl

theorem sessions_length_start_streaming (app : App) (s b : Nat) :
    (app.start_streaming_assistant s b).sessions.length =
      app.sessions.length := by
  simp [App.start_streaming_assistant, length_listModify]

theorem branchCount_start_streaming (app : App) (s b : Nat) (si : Nat) :
    (app.start_streaming_assistant s b).branchCount si =
      app.branchCount si := by
  simp only [App.start_streaming_assistant, App.branchCount, getD_listModify]
  split_ifs with h
  · simp [length_listModify]
  · rfl

theorem branchMessages_start_streaming_ne (app : App) (s b si bi : Nat)
    (hne : ¬ (s = si ∧ b = bi)) :
    (app.start_streaming_assistant s b).branchMessages si bi =
      app.branchMessages si bi := by
  simp only [App.start_streaming_assistant, App.branchMessages, App.branchAt,
    getD_listModify]
  split_ifs with hs
  · obtain ⟨hs1, _⟩ := hs
    subst hs1
    have hbne : ¬ (b = bi) := fun hb => hne ⟨rfl, hb⟩
    simp only [getD_listModify]
    rw [if_neg (fun hh => hbne hh.1)]
  · rfl

theorem branchMessages_start_streaming_self (app : App) (s b : Nat)
    (hs : s < app.sessions.length) (hb : b < app.branchCount s) :
    (app.start_streaming_assistant s b).branchMessages s b =
      app.branchMessages s b ++
        [({ from_ := MessageFrom.Assistant, content := "" } : Message)] := by
  simp only [App.branchCount] at hb
  unfold App.start_streaming_assistant App.branchMessages App.branchAt
  rw [getD_listModify, if_pos ⟨rfl, hs⟩]
  rw [getD_listModify, if_pos ⟨rfl, hb⟩]

theorem msgContent_start_streaming_self (app : App) (s b : Nat)
    (hs : s < app.sessions.length) (hb : b < app.branchCount s) :
    (app.start_streaming_assistant s b).msgContent s b
      (app.branchMessages s b).length = "" := by
  unfold App.msgContent
  rw [branchMessages_start_streaming_self app s b hs hb]
  rw [getD_append_len _ _ _ _ rfl]

theorem foldl_append_extract (cs : List String) :
    ∀ a : String, cs.foldl (fun r s => r ++ s) a =
      a ++ cs.foldl (fun r s => r ++ s) "" := by
  induction cs with
  | nil => intro a; simp
  | cons c cs ih =>
    intro a
    simp only [List.foldl_cons]
    rw [ih (a ++ c), ih ("" ++ c), String.empty_append, String.append_assoc]

theorem join_cons (c : String) (cs : List String) :
    String.join (c :: cs) = c ++ String.join cs := by
  simp only [String.join, List.foldl_cons, String.empty_append]
  exact foldl_append_extract cs c

theorem msgContent_applyChunks (cs : List String) :
    ∀ (app : App) (s b m : Nat),
      app.streaming_assistant = some (s, b, m) →
      s < app.sessions.length → b < app.branchCount s →
      m < (app.branchMessages s b).length →
      (applyChunks app s b cs).msgContent s b m =
        app.msgContent s b m ++ String.join cs := by
  induction cs with
  | nil =>
    intro app s b m _ _ _ _
    simp [applyChunks, String.join]
  | cons c cs ih =>
    intro app s b m hcur hs hb hm
    have h1 := msgContent_append_chunk app s b m c hcur hs hb hm
    have hstep : applyChunks app s b (c :: cs) =
        applyChunks (app.append_assistant_chunk s b c) s b cs := rfl
    rw [hstep,
      ih _ s b m (by rw [streaming_append_chunk]; exact hcur)
        (by rw [sessions_length_append_chunk]; exact hs)
        (by rw [branchCount_append_chunk]; exact hb)
        (by rw [branchMessages_length_append_chunk]; exact hm),
      h1, join_cons, String.append_assoc]

theorem sessions_length_fork (app : App) (ctx : EditContext) (text : String) :
    (app.fork_and_send_from_edit ctx text).sessions.length =
      app.sessions.length := by
  simp [App.fork_and_send_from_edit, App.start_streaming_assistant,
    length_listModify]

theorem branchCount_fork (app : App) (ctx : EditContext) (text : String)
    (si : Nat) :
    (app.fork_and_send_from_edit ctx text).branchCount si =
      if ctx.session_idx = si ∧ si < app.sessions.length then
        app.branchCount si + 1
      else app.branchCount si := by
  unfold App.fork_and_send_from_edit
  rw [branchCount_start_streaming]
  simp only [App.branchCount, getD_listModify, length_listModify]
  split_ifs with h
  · simp
  · rfl

theorem branchMessages_fork_frame (app : App) (ctx : EditContext)
    (text : String) (si bi : Nat) (hbi : bi < app.branchCount si) :
    (app.fork_and_send_from_edit ctx text).branchMessages si bi =
      app.branchMessages si bi := by
  unfold App.fork_and_send_from_edit
  have hbc : bi < app.branchCount si := hbi
  simp only [App.branchCount] at hbc
  rw [branchMessages_start_streaming_ne]
  · simp only [App.branchMessages, App.branchAt, getD_listModify,
      length_listModify]
    split_ifs with h
    · obtain ⟨h1, _⟩ := h
      subst h1
      rw [getD_append_lt _ _ _ _ hbc]
    · rfl
  · rintro ⟨h1, h2⟩
    subst h1
    subst h2
    exact absurd hbi (by omega)

theorem active_branch_fork (app : App) (ctx : EditContext) (text : String)
    (hs : ctx.session_idx < app.sessions.length) :
    ((app.fork_and_send_from_edit ctx text).sessions.getD ctx.session_idx
        default).active_branch = app.branchCount ctx.session_idx := by
  unfold App.fork_and_send_from_edit App.start_streaming_assistant
  rw [getD_listModify, if_pos ⟨rfl, by rw [length_listModify]; exact hs⟩]
  rw [getD_listModify, if_pos ⟨rfl, hs⟩]
  rfl

theorem branchMessages_fork_new (app : App) (ctx : EditContext)
    (text : String) (hs : ctx.session_idx < app.sessions.length) :
    (app.fork_and_send_from_edit ctx text).branchMessages ctx.session_idx
        (app.branchCount ctx.session_idx) =
      (listModify (app.branchMessages ctx.session_idx ctx.branch_idx)
          ctx.message_idx (fun m => { m with content := text })).take
        (ctx.message_idx + 1) ++
        [({ from_ := MessageFrom.Assistant, content := "" } : Message)] := by
  unfold App.fork_and_send_from_edit
  rw [branchMessages_start_streaming_self]
  · congr 1
    unfold App.branchMessages App.branchAt
    rw [getD_listModify, if_pos ⟨rfl, hs⟩]
    simp only []
    rw [getD_append_len ((app.sessions.getD ctx.session_idx default).branches)
      _ (app.branchCount ctx.session_idx) default rfl]
  · simpa [length_listModify] using hs
  · simp only [App.branchCount]
    rw [getD_listModify, if_pos ⟨rfl, hs⟩]
    simp [App.branchCount]

theorem sessions_finish_streaming (app : App) (s b : Nat) :
    (app.finish_streaming s b).sessions = app.sessions := by
  cases hcur : app.streaming_assistant with
  | none => simp [App.finish_streaming, hcur]
  | some t =>
    obtain ⟨s', b', m'⟩ := t
    by_cases h : s' = s ∧ b' = b <;>
      simp [App.finish_streaming, hcur, h]

theorem branchMessages_finish_streaming (app : App) (s b si bi : Nat) :
    (app.finish_streaming s b).branchMessages si bi =
      app.branchMessages si bi := by
  unfold App.branchMessages App.branchAt
  rw [sessions_finish_streaming]

theorem branchCount_finish_streaming (app : App) (s b si : Nat) :
    (app.finish_streaming s b).branchCount si = app.branchCount si := by
  unfold App.branchCount
  rw [sessions_finish_streaming]

theorem branchMessages_next_branch (app : App) (si bi : Nat) :
    (app.next_branch).branchMessages si bi = app.branchMessages si bi := by
  unfold App.next_branch
  simp only []
  split_ifs with h1 h2
  · rfl
  all_goals
    unfold App.branchMessages App.branchAt
    rw [getD_listModify]
    split_ifs with h3
    · obtain ⟨h3a, h3b⟩ := h3
      subst h3a
      rfl
    · rfl

theorem branchCount_next_branch (app : App) (si : Nat) :
    (app.next_branch).branchCount si = app.branchCount si := by
  unfold App.next_branch
  simp only []
  split_ifs with h1 h2
  · rfl
  all_goals
    unfold App.branchCount
    rw [getD_listModify]
    split_ifs with h3
    · obtain ⟨h3a, h3b⟩ := h3
      subst h3a
      rfl
    · rfl

theorem branchMessages_prev_branch (app : App) (si bi : Nat) :
    (app.prev_branch).branchMessages si bi = app.branchMessages si bi := by
  unfold App.prev_branch
  simp only []
  split_ifs with h1 h2
  · rfl
  all_goals
    unfold App.branchMessages App.branchAt
    rw [getD_listModify]
    split_ifs with h3
    · obtain ⟨h3a, h3b⟩ := h3
      subst h3a
      rfl
    · rfl

theorem branchCount_prev_branch (app : App) (si : Nat) :
    (app.prev_branch).branchCount si = app.branchCount si := by
  unfold App.prev_branch
  simp only []
  split_ifs with h1 h2
  · rfl
  all_goals
    unfold App.branchCount
    rw [getD_listModify]
    split_ifs with h3
    · obtain ⟨h3a, h3b⟩ := h3
      subst h3a
      rfl
    · rfl

theorem branchMessages_new_session (app : App) (freshId : String)
    (si bi : Nat) (hbi : bi < app.branchCount si) :
    (app.new_session freshId).branchMessages si bi =
      app.branchMessages si bi := by
  have hsi : si < app.sessions.length := by
    by_contra hn
    have : app.sessions.getD si default = default := by
      rw [List.getD_eq_default]
      omega
    unfold App.branchCount at hbi
    rw [this] at hbi
    simp [default] at hbi
  unfold App.new_session App.branchMessages App.branchAt
  rw [getD_append_lt _ _ _ _ hsi]

theorem branchCount_new_session (app : App) (freshId : String) (si : Nat)
    (hsi : si < app.sessions.length) :
    (app.new_session freshId).branchCount si = app.branchCount si := by
  unfold App.new_session App.branchCount
  rw [getD_append_lt _ _ _ _ hsi]

theorem branchMessages_input_clear (x : App) (si bi : Nat) :
    (App.mk x.sessions x.active_idx "" x.msg_scroll
        x.streaming_assistant).branchMessages si bi =
      x.branchMessages si bi := rfl

theorem branchCount_input_clear (x : App) (si : Nat) :
    (App.mk x.sessions x.active_idx "" x.msg_scroll
        x.streaming_assistant).branchCount si = x.branchCount si := rfl

theorem branchMessages_send_user_ne (app : App) (text : String) (si bi : Nat)
    (hne : ¬ (app.active_idx = si ∧
      (app.sessions.getD app.active_idx default).active_branch = bi)) :
    (app.send_user_message_with_streaming text).branchMessages si bi =
      app.branchMessages si bi := by
  unfold App.send_user_message_with_streaming
  simp only []
  rw [branchMessages_input_clear]
  rw [branchMessages_start_streaming_ne _ _ _ _ _ hne]
  unfold App.branchMessages App.branchAt
  rw [getD_listModify]
  split_ifs with h3
  · obtain ⟨h3a, h3b⟩ := h3
    subst h3a
    have hbne : ¬ ((app.sessions.getD app.active_idx default).active_branch
        = bi) := fun hb => hne ⟨rfl, hb⟩
    rw [getD_listModify, if_neg (fun hh => hbne hh.1)]
  · rfl

theorem branchCount_send_user (app : App) (text : String) (si : Nat) :
    (app.send_user_message_with_streaming text).branchCount si =
      app.branchCount si := by
  unfold App.send_user_message_with_streaming
  simp only []
  rw [branchCount_input_clear, branchCount_start_streaming]
  unfold App.branchCount
  rw [getD_listModify]
  split_ifs with h3
  · obtain ⟨h3a, h3b⟩ := h3
    subst h3a
    rw [length_listModify]
  · rfl

theorem session_lt_of_branchCount_pos (app : App) (si : Nat)
    (h : 0 < app.branchCount si) : si < app.sessions.length := by
  by_contra hn
  unfold App.branchCount at h
  rw [List.getD_eq_default _ _ (by omega)] at h
  simp [default] at h

theorem applyOp_frame (op : Op) (app : App) (si bi : Nat)
    (hbi : bi < app.branchCount si) (hop : opTouches app op si bi = false) :
    (applyOp app op).branchMessages si bi = app.branchMessages si bi ∧
      bi < (applyOp app op).branchCount si := by
  cases op with
  | userSend text =>
    have hne : ¬ (app.active_idx = si ∧
        (app.sessions.getD app.active_idx default).active_branch = bi) := by
      simpa [opTouches] using hop
    exact ⟨branchMessages_send_user_ne app text si bi hne,
      by rw [applyOp, branchCount_send_user]; exact hbi⟩
  | chunk s b text =>
    have hne : ¬ (s = si ∧ b = bi) := by simpa [opTouches] using hop
    exact ⟨branchMessages_append_chunk_ne app s b text si bi hne,
      by rw [applyOp, branchCount_append_chunk]; exact hbi⟩
  | done s b =>
    exact ⟨branchMessages_finish_streaming app s b si bi,
      by rw [applyOp, branchCount_finish_streaming]; exact hbi⟩
  | forkEdit ctx text =>
    refine ⟨branchMessages_fork_frame app ctx text si bi hbi, ?_⟩
    rw [applyOp, branchCount_fork]
    split_ifs with h
    · omega
    · exact hbi
  | startStream s b =>
    have hne : ¬ (s = si ∧ b = bi) := by simpa [opTouches] using hop
    exact ⟨branchMessages_start_streaming_ne app s b si bi hne,
      by rw [applyOp, branchCount_start_streaming]; exact hbi⟩
  | nextBranch =>
    exact ⟨branchMessages_next_branch app si bi,
      by rw [applyOp, branchCount_next_branch]; exact hbi⟩
  | prevBranch =>
    exact ⟨branchMessages_prev_branch app si bi,
      by rw [applyOp, branchCount_prev_branch]; exact hbi⟩
  | newSession freshId =>
    have hsi : si < app.sessions.length :=
      session_lt_of_branchCount_pos app si (by omega)
    exact ⟨branchMessages_new_session app freshId si bi hbi,
      by rw [applyOp, branchCount_new_session app freshId si hsi]; exact hbi⟩

theorem applyOps_frame (ops : List Op) :
    ∀ (app : App) (si bi : Nat),
      bi < app.branchCount si → avoidsAll app ops si bi = true →
      (applyOps app ops).branchMessages si bi = app.branchMessages si bi := by
  induction ops with
  | nil => intro app si bi _ _; rfl
  | cons op ops ih =>
    intro app si bi hbi hav
    rw [avoidsAll, Bool.and_eq_true, Bool.not_eq_true'] at hav
    obtain ⟨h1, h2⟩ := hav
    obtain ⟨hm, hc⟩ := applyOp_frame op app si bi hbi h1
    have hstep : applyOps app (op :: ops) = applyOps (applyOp app op) ops :=
      rfl
    rw [hstep, ih (applyOp app op) si bi hc h2, hm]

theorem splitChar_not_mem (sep : Char) (l : List Char) (h : sep ∉ l) :
    splitChar sep l = [l] := by
  induction l with
  | nil => rfl
  | cons c cs ih =>
    have hc : ¬ (c = sep) := fun hh => h (hh ▸ List.mem_cons_self c cs)
    have hcs : sep ∉ cs := fun hh => h (List.mem_cons_of_mem c hh)
    simp [splitChar, hc, ih hcs]

theorem splitChar_append (sep : Char) (t n : List Char) (ht : sep ∉ t) :
    splitChar sep (t ++ sep :: n) = t :: splitChar sep n := by
  induction t with
  | nil => simp [splitChar]
  | cons c cs ih =>
    have hc : ¬ (c = sep) := fun hh => ht (hh ▸ List.mem_cons_self c cs)
    have hcs : sep ∉ cs := fun hh => ht (List.mem_cons_of_mem c hh)
    simp only [List.cons_append, splitChar, hc, if_false]
    rw [List.append_eq, ih hcs]

theorem mk_data (s : String) : String.mk s.data = s := rfl

theorem findAt_spec {α : Type} (m : List Char → Option α) :
    ∀ (l : List Char) (i : Nat) (a : α), findAt m l = some (i, a) →
      m (l.drop i) = some a ∧ ∀ j < i, m (l.drop j) = none := by
  intro l
  induction l with
  | nil =>
    intro i a h
    unfold findAt at h
    cases hm : m [] with
    | none => rw [hm] at h; cases h
    | some a' =>
      rw [hm] at h
      cases h
      exact ⟨hm, by omega⟩
  | cons c rest ih =>
    intro i a h
    unfold findAt at h
    cases hm : m (c :: rest) with
    | some a' =>
      rw [hm] at h
      cases h
      exact ⟨hm, by omega⟩
    | none =>
      rw [hm] at h
      cases hrec : findAt m rest with
      | none => rw [hrec] at h; cases h
      | some p =>
        obtain ⟨i', a'⟩ := p
        rw [hrec] at h
        simp only [Option.map_some] at h
        cases h
        obtain ⟨h1, h2⟩ := ih i' a' hrec
        refine ⟨h1, ?_⟩
        intro j hj
        cases j with
        | zero => exact hm
        | succ j' => exact h2 j' (by omega)

theorem normalize_eq_specUnescape (l : List Char) :
    normalizeEscapedContentL l = specUnescape l := by
  induction l using normalizeEscapedContentL.induct with
  | case1 => rfl
  | case2 rest ih =>
    simp [normalizeEscapedContentL, specUnescape, specEscapeMap, ih]
  | case3 rest ih =>
    simp [normalizeEscapedContentL, specUnescape, specEscapeMap, ih]
  | case4 rest ih =>
    simp [normalizeEscapedContentL, specUnescape, specEscapeMap, ih]
  | case5 rest ih =>
    simp [normalizeEscapedContentL, specUnescape, specEscapeMap, ih]
  | case6 rest ih =>
    simp [normalizeEscapedContentL, specUnescape, specEscapeMap, ih]
  | case7 rest ih =>
    simp [normalizeEscapedContentL, specUnescape, specEscapeMap, ih]
  | case8 c rest h1 h2 h3 h4 h5 h6 ih =>
    simp only [normalizeEscapedContentL, specUnescape, specEscapeMap]
    rw [if_neg h1, if_neg h2, if_neg h3, if_neg h4, if_neg h5, if_neg h6]
    simp only []
    rw [ih]
  | case9 c rest h ih =>
    simp [normalizeEscapedContentL, specUnescape, specEscapeMap, *]

theorem fsRead_fsWrite_self (fs : FileSys) (path data : String) :
    fsRead (fsWrite fs path data) path = some data := by
  simp [fsRead, fsWrite]

theorem fsRead_fsWrite_other (fs : FileSys) (path data q : String)
    (h : q ≠ path) : fsRead (fsWrite fs path data) q = fsRead fs q := by
  unfold fsRead fsWrite
  rw [List.find?_cons_of_neg _ (by simpa using fun hh => h hh.symm)]
  congr 1
  induction fs with
  | nil => rfl
  | cons p ps ih =>
    by_cases hp : p.1 = path
    · have hpq : ¬ (p.1 = q) := by rw [hp]; exact fun hh => h hh.symm
      rw [List.filter_cons_of_neg (by simpa using hp),
        List.find?_cons_of_neg _ (by simpa using hpq), ih]
    · by_cases hq : p.1 = q
      · rw [List.filter_cons_of_pos (by simpa using hp),
          List.find?_cons_of_pos _ (by simpa using hq),
          List.find?_cons_of_pos _ (by simpa using hq)]
      · rw [List.filter_cons_of_pos (by simpa using hp),
          List.find?_cons_of_neg _ (by simpa using hq),
          List.find?_cons_of_neg _ (by simpa using hq), ih]

theorem streaming_next_branch (app : App) :
    (app.next_branch).streaming_assistant = app.streaming_assistant := by
  unfold App.next_branch
  simp only []
  split_ifs <;> rfl

theorem sessions_length_next_branch (app : App) :
    (app.next_branch).sessions.length = app.sessions.length := by
  unfold App.next_branch
  simp only []
  split_ifs <;> simp [length_listModify]

theorem msgContent_next_branch (app : App) (si bi mi : Nat) :
    (app.next_branch).msgContent si bi mi = app.msgContent si bi mi := by
  unfold App.msgContent
  rw [branchMessages_next_branch]

/-- C7: for every session state, an attempt to delete the branch named
"main" is rejected: `branch_delete` returns with the manager (current
branch included) unchanged and no persisted file removed, whatever the
confirmation answer or clock say. -/
theorem C7_delete_main_rejected (sm : SessionManager) (files : List String)
    (confirm : Bool) (now : Nat) :
    branch_delete sm files "main" confirm now = (sm, files) := by
  unfold branch_delete
  rw [if_pos rfl]

/-- C4: a chunk event whose `(session, branch)` tag does not match the
live cursor — or any chunk event when no cursor is live — leaves the
whole app state, and in particular every message's content in every
branch of every session, unchanged. -/
theorem C4_stale_chunk_noop (app : App) (s b : Nat) (c : String)
    (h : cursorMatches app.streaming_assistant s b = false) :
    app.append_assistant_chunk s b c = app ∧
    ∀ si bi mi, (app.append_assistant_chunk s b c).msgContent si bi mi =
      app.msgContent si bi mi := by
  have he := append_chunk_stale app s b c h
  exact ⟨he, fun si bi mi => by rw [he]⟩

/-- Witness for C4: with the cursor on `(0, 0)`, a chunk tagged
`(0, 1)` is dropped. -/
theorem C4_stale_chunk_noop_witness :
    cursorMatches exAppStreaming.streaming_assistant 0 1 = false ∧
    exAppStreaming.append_assistant_chunk 0 1 "x" = exAppStreaming := by
  refine ⟨by decide, ?_⟩
  exact (C4_stale_chunk_noop exAppStreaming 0 1 "x" (by decide)).1

/-- C5: applying a worker's chunk sequence in emission order under the
cursor opened by `start_streaming_assistant` leaves the streamed
message's content equal to the concatenation of all chunks in that
order — no reordering, no duplication. -/
theorem C5_chunks_concat (app : App) (s b : Nat) (cs : List String)
    (hs : s < app.sessions.length) (hb : b < app.branchCount s) :
    (applyChunks (app.start_streaming_assistant s b) s b cs).msgContent s b
      (app.branchMessages s b).length = String.join cs := by
  have h1 : s < (app.start_streaming_assistant s b).sessions.length := by
    rw [sessions_length_start_streaming]; exact hs
  have h2 : b < (app.start_streaming_assistant s b).branchCount s := by
    rw [branchCount_start_streaming]; exact hb
  have h3 : (app.branchMessages s b).length <
      ((app.start_streaming_assistant s b).branchMessages s b).length := by
    rw [branchMessages_start_streaming_self app s b hs hb]
    simp
  rw [msgContent_applyChunks cs _ s b _ (streaming_start_streaming app s b)
    h1 h2 h3]
  rw [msgContent_start_streaming_self app s b hs hb, String.empty_append]

/-- Witness for C5: Scenario C — chunks "He" then "llo" under one
cursor yield content "Hello". -/
theorem C5_chunks_concat_witness :
    (applyChunks (exApp.start_streaming_assistant 0 0) 0 0
      ["He", "llo"]).msgContent 0 0 (exApp.branchMessages 0 0).length =
      String.join ["He", "llo"] ∧
    String.join ["He", "llo"] = "Hello" :=
  ⟨C5_chunks_concat exApp 0 0 ["He", "llo"] (by decide) (by decide),
    by decide⟩

/-- C6 counterexample: a branch named `a_b` — the separator character
inside the name — is saved under the stem `Session 1_a_b`, which
`load_logs` skips (it does not split into exactly two parts), so the
round trip reconstructs nothing at all. -/
theorem C6_roundtrip_counterexample :
    exUnderscoreBranch.name = "a_b" ∧
    load_log_file (logFileStem "Session 1" "a_b") exUnderscoreBranch =
      none := by
  refine ⟨rfl, ?_⟩
  decide

/-- C6 (amended): when neither the session title nor the branch name
contains the `'_'` filename separator, saving a branch and loading the
resulting file reconstructs the branch — identical ordered message
list and name — under the original session title. -/
theorem C6_roundtrip_no_separator (title name : String) (b : Branch)
    (ht : '_' ∉ title.data) (hn : '_' ∉ name.data) (hb : b.name = name) :
    load_log_file (logFileStem title name) b = some (title, b) := by
  unfold load_log_file logFileStem
  rw [splitChar_append '_' title.data name.data ht,
    splitChar_not_mem '_' name.data hn]
  simp only []
  rw [mk_data, ← hb, mk_data]

/-- Witness for C6: the `main` branch of `Session 1` round-trips. -/
theorem C6_roundtrip_no_separator_witness :
    load_log_file (logFileStem "Session 1" "main") exMainBranch =
      some ("Session 1", exMainBranch) :=
  C6_roundtrip_no_separator "Session 1" "main" exMainBranch (by decide)
    (by decide) rfl

/-- C9: the write tool first unescapes its content exactly as §4.4
words it (the six literal two-character escapes become real characters,
everything else is preserved in order — `normalize_escaped_content`
coincides with the spec-modelled `specUnescape`), then writes it,
overwriting whatever the path held; other paths are untouched. -/
theorem C9_write_unescapes_and_overwrites :
    (∀ s : String,
      normalize_escaped_content s = String.mk (specUnescape s.data)) ∧
    ∀ (fs : FileSys) (path raw : String) (shell : String → String × String),
      execute_mcp ⟨"filesystem.write", some path, some raw⟩ fs shell =
        Except.ok ("Wrote " ++
            toString (normalize_escaped_content raw).length ++
            " bytes to '" ++ path ++ "'.",
          fsWrite fs path (normalize_escaped_content raw)) ∧
      fsRead (fsWrite fs path (normalize_escaped_content raw)) path =
        some (normalize_escaped_content raw) ∧
      ∀ q, q ≠ path →
        fsRead (fsWrite fs path (normalize_escaped_content raw)) q =
          fsRead fs q := by
  constructor
  · intro s
    unfold normalize_escaped_content
    rw [normalize_eq_specUnescape]
  · intro fs path raw shell
    exact ⟨rfl, fsRead_fsWrite_self fs path _,
      fun q hq => fsRead_fsWrite_other fs path _ q hq⟩

/-- Witness for C9: `line1\nline2` is written with a real newline,
and a different path is unaffected by the overwrite. -/
theorem C9_write_unescapes_and_overwrites_witness :
    normalize_escaped_content "line1\\nline2" =
      String.mk (specUnescape "line1\\nline2".data) ∧
    fsRead (fsWrite [] "p.txt" (normalize_escaped_content "line1\\nline2"))
      "q.txt" = fsRead [] "q.txt" ∧
    normalize_escaped_content "line1\\nline2" = "line1\nline2" :=
  ⟨C9_write_unescapes_and_overwrites.1 "line1\\nline2",
    (C9_write_unescapes_and_overwrites.2 [] "p.txt" "line1\\nline2"
      (fun _ => ("", ""))).2.2 "q.txt" (by decide),
    by decide⟩

/-- C1 counterexample: editing message 0 of a 2-message branch forks a
branch of length 2, not `0 + 1` — `fork_and_send_from_edit` already
pushes the empty assistant placeholder for the fresh reply before any
chunk arrives. -/
theorem C1_fork_length_counterexample :
    ((exApp.fork_and_send_from_edit ⟨0, 0, 0⟩ "hi there").branchMessages
      0 1).length ≠ 0 + 1 := by
  decide

/-- C1 (amended): forking at index `k` appends a new branch that
becomes active, whose first `k` messages equal the source's, whose
message `k` carries the new text, and whose length is exactly `k + 2`:
the truncated prefix of length `k + 1` plus the empty assistant
placeholder pushed when streaming starts, before any chunk of the new
reply arrives. -/
theorem C1_fork_appends_edited_branch (app : App) (ctx : EditContext)
    (text : String) (hs : ctx.session_idx < app.sessions.length)
    (hb : ctx.branch_idx < app.branchCount ctx.session_idx)
    (hm : ctx.message_idx <
      (app.branchMessages ctx.session_idx ctx.branch_idx).length) :
    (app.fork_and_send_from_edit ctx text).branchCount ctx.session_idx =
      app.branchCount ctx.session_idx + 1 ∧
    ((app.fork_and_send_from_edit ctx text).branchMessages ctx.session_idx
        (app.branchCount ctx.session_idx)).take ctx.message_idx =
      (app.branchMessages ctx.session_idx ctx.branch_idx).take
        ctx.message_idx ∧
    (((app.fork_and_send_from_edit ctx text).branchMessages ctx.session_idx
        (app.branchCount ctx.session_idx)).getD ctx.message_idx
      default).content = text ∧
    ((app.fork_and_send_from_edit ctx text).branchMessages ctx.session_idx
        (app.branchCount ctx.session_idx)).length = ctx.message_idx + 2 ∧
    ((app.fork_and_send_from_edit ctx text).branchMessages ctx.session_idx
        (app.branchCount ctx.session_idx)).getD (ctx.message_idx + 1)
      default = ({ from_ := MessageFrom.Assistant, content := "" } : Message) ∧
    ((app.fork_and_send_from_edit ctx text).sessions.getD ctx.session_idx
      default).active_branch = app.branchCount ctx.session_idx := by
  have hnew := branchMessages_fork_new app ctx text hs
  have hMlen : (listModify
      (app.branchMessages ctx.session_idx ctx.branch_idx) ctx.message_idx
      (fun m => { m with content := text })).length =
      (app.branchMessages ctx.session_idx ctx.branch_idx).length :=
    length_listModify _ _ _
  have htklen : ((listModify
      (app.branchMessages ctx.session_idx ctx.branch_idx) ctx.message_idx
      (fun m => { m with content := text })).take
        (ctx.message_idx + 1)).length = ctx.message_idx + 1 := by
    rw [List.length_take, hMlen]
    omega
  refine ⟨?_, ?_, ?_, ?_, ?_, active_branch_fork app ctx text hs⟩
  · rw [branchCount_fork]
    rw [if_pos ⟨rfl, hs⟩]
  · rw [hnew, List.take_append_of_le_length (by rw [htklen]; omega),
      List.take_take]
    have hmin : min ctx.message_idx (ctx.message_idx + 1) =
        ctx.message_idx := by omega
    rw [hmin, take_listModify _ _ _ _ (by omega)]
  · rw [hnew, getD_append_lt _ _ _ _ (by rw [htklen]; omega),
      getD_take _ _ _ _ (by omega),
      getD_listModify_self _ _ _ _ hm]
  · rw [hnew, List.length_append, htklen]
    rfl
  · rw [hnew, getD_append_len _ _ _ _ (by rw [htklen])]

/-- Witness for C1: Scenario A's fork at index 0 yields a 2-message
branch (the edited user message plus the empty placeholder). -/
theorem C1_fork_appends_edited_branch_witness :
    0 < exApp.sessions.length ∧
    ((exApp.fork_and_send_from_edit ⟨0, 0, 0⟩ "hi there").branchMessages 0
      (exApp.branchCount 0)).length = 0 + 2 :=
  ⟨by decide,
    (C1_fork_appends_edited_branch exApp ⟨0, 0, 0⟩ "hi there" (by decide)
      (by decide) (by decide)).2.2.2.1⟩

/-- C2: forking never mutates the source branch, and any sequence of
subsequent operations that stays off the source branch — chunk events
tagged elsewhere, sends on the new active branch, further fork-edits,
branch switches, completions — leaves the source branch's ordered
message list exactly as it was at fork time. -/
theorem C2_fork_source_immutable (app : App) (ctx : EditContext)
    (text : String) (ops : List Op)
    (hbi : ctx.branch_idx < app.branchCount ctx.session_idx)
    (hav : avoidsAll (app.fork_and_send_from_edit ctx text) ops
      ctx.session_idx ctx.branch_idx = true) :
    (app.fork_and_send_from_edit ctx text).branchMessages ctx.session_idx
      ctx.branch_idx = app.branchMessages ctx.session_idx ctx.branch_idx ∧
    (applyOps (app.fork_and_send_from_edit ctx text) ops).branchMessages
      ctx.session_idx ctx.branch_idx =
      app.branchMessages ctx.session_idx ctx.branch_idx := by
  have h1 := branchMessages_fork_frame app ctx text ctx.session_idx
    ctx.branch_idx hbi
  have hbi' : ctx.branch_idx <
      (app.fork_and_send_from_edit ctx text).branchCount ctx.session_idx := by
    rw [branchCount_fork]
    split_ifs <;> omega
  exact ⟨h1, by rw [applyOps_frame ops _ _ _ hbi' hav, h1]⟩

/-- Witness for C2: after forking off `main`, chunks for the new
branch, a user send, a further fork-edit, a branch switch and a
completion all leave `main`'s messages untouched. -/
theorem C2_fork_source_immutable_witness :
    0 < exApp.branchCount 0 ∧
    avoidsAll (exApp.fork_and_send_from_edit ⟨0, 0, 0⟩ "hi there")
      [Op.chunk 0 1 "Hi", Op.userSend "more", Op.forkEdit ⟨0, 1, 0⟩ "again",
        Op.nextBranch, Op.done 0 1] 0 0 = true ∧
    (applyOps (exApp.fork_and_send_from_edit ⟨0, 0, 0⟩ "hi there")
      [Op.chunk 0 1 "Hi", Op.userSend "more", Op.forkEdit ⟨0, 1, 0⟩ "again",
        Op.nextBranch, Op.done 0 1]).branchMessages 0 0 =
      exApp.branchMessages 0 0 :=
  ⟨by decide, by decide,
    (C2_fork_source_immutable exApp ⟨0, 0, 0⟩ "hi there"
      [Op.chunk 0 1 "Hi", Op.userSend "more", Op.forkEdit ⟨0, 1, 0⟩ "again",
        Op.nextBranch, Op.done 0 1] (by decide) (by decide)).2⟩

/-- C3 counterexample: with the cursor streaming into `(S0, B0)`,
switching the active branch to B1 does not invalidate the cursor, so a
later chunk tagged `(S0, B0)` is appended — message content changes —
rather than dropped. -/
theorem C3_switch_does_not_drop_counterexample :
    ((exAppStreaming.next_branch).sessions.getD 0 default).active_branch =
      1 ∧
    ((exAppStreaming.next_branch).append_assistant_chunk 0 0
        "Hello").msgContent 0 0 1 ≠
      (exAppStreaming.next_branch).msgContent 0 0 1 := by
  decide

/-- C3 (amended): switching the active branch leaves the streaming
cursor untouched, so chunk events tagged `(S0, B0)` continue to be
appended to B0's streaming message; every other branch — B1 included —
is unaffected.  Chunks are only dropped once the cursor no longer
targets `(S0, B0)`. -/
theorem C3_switch_keeps_streaming (app : App) (s b m : Nat) (c : String)
    (hcur : app.streaming_assistant = some (s, b, m))
    (hs : s < app.sessions.length) (hb : b < app.branchCount s)
    (hm : m < (app.branchMessages s b).length) :
    (app.next_branch).streaming_assistant = some (s, b, m) ∧
    ((app.next_branch).append_assistant_chunk s b c).msgContent s b m =
      (app.next_branch).msgContent s b m ++ c ∧
    ∀ si bi, ¬ (s = si ∧ b = bi) →
      ((app.next_branch).append_assistant_chunk s b c).branchMessages si
        bi = app.branchMessages si bi := by
  have hc : (app.next_branch).streaming_assistant = some (s, b, m) := by
    rw [streaming_next_branch]
    exact hcur
  refine ⟨hc, ?_, ?_⟩
  · exact msgContent_append_chunk (app.next_branch) s b m c hc
      (by rw [sessions_length_next_branch]; exact hs)
      (by rw [branchCount_next_branch]; exact hb)
      (by rw [branchMessages_next_branch]; exact hm)
  · intro si bi hne
    rw [branchMessages_append_chunk_ne _ _ _ _ _ _ hne,
      branchMessages_next_branch]

/-- Witness for C3: in Scenario D's state, the chunk keeps streaming
into B0 after the switch. -/
theorem C3_switch_keeps_streaming_witness :
    (exAppStreaming.next_branch).streaming_assistant = some (0, 0, 1) ∧
    ((exAppStreaming.next_branch).append_assistant_chunk 0 0
        "He").msgContent 0 0 1 =
      (exAppStreaming.next_branch).msgContent 0 0 1 ++ "He" :=
  ⟨(C3_switch_keeps_streaming exAppStreaming 0 0 1 "He" (by decide)
      (by decide) (by decide) (by decide)).1,
    (C3_switch_keeps_streaming exAppStreaming 0 0 1 "He" (by decide)
      (by decide) (by decide) (by decide)).2.1⟩

/-- C10: after a completed exchange the assistant answer is appended;
once the branch holds at least 40 messages (20 user+assistant pairs)
the summary generated from the follow-up call is stored — set when the
field was empty, appended after the `"\n\n---\n"` separator otherwise —
while below 40 messages the summary field is left unchanged. -/
theorem C10_summary_trigger (cur : SSession) (ans sa : String)
    (hsa : trimRust sa ≠ "") :
    (send_and_stream_llm cur ans sa).messages =
      cur.messages ++ [({ role := "assistant", content := ans } : SMessage)] ∧
    (40 ≤ cur.messages.length + 1 →
      (send_and_stream_llm cur ans sa).summary =
        some (if summaryIsEmpty cur.summary then trimRust sa
          else cur.summary.getD "" ++ "\n\n---\n" ++ trimRust sa)) ∧
    (cur.messages.length + 1 < 40 →
      (send_and_stream_llm cur ans sa).summary = cur.summary) := by
  refine ⟨?_, ?_, ?_⟩
  · unfold send_and_stream_llm generate_summary
    simp only []
    split_ifs <;> rfl
  · intro h40
    unfold send_and_stream_llm
    simp only []
    rw [if_pos (by simp only [SUMMARY_TRIGGER_PAIRS, List.length_append,
      List.length_cons, List.length_nil, ge_iff_le]; omega)]
    unfold generate_summary
    simp only []
    rw [if_neg hsa]
    cases hsum : cur.summary with
    | none => simp [summaryIsEmpty, hsum]
    | some old =>
      by_cases ho : trimRust old = ""
      · simp [summaryIsEmpty, hsum, ho]
      · simp [summaryIsEmpty, hsum, ho]
  · intro hlt
    unfold send_and_stream_llm
    simp only []
    rw [if_neg (by simp only [SUMMARY_TRIGGER_PAIRS, List.length_append,
      List.length_cons, List.length_nil, ge_iff_le, not_le]; omega)]

/-- Witness for C10: the 40th message triggers summarization and sets
the previously empty summary field to the trimmed summary text. -/
theorem C10_summary_trigger_witness :
    trimRust " s " ≠ "" ∧
    40 ≤ exSession39.messages.length + 1 ∧
    (send_and_stream_llm exSession39 "ok" " s ").summary =
      some (if summaryIsEmpty exSession39.summary then trimRust " s "
        else exSession39.summary.getD "" ++ "\n\n---\n" ++ trimRust " s ") :=
  ⟨by decide, by decide,
    (C10_summary_trigger exSession39 "ok" " s " (by decide)).2.1 (by decide)⟩

/-- C8 counterexample: in `exToolOutput` the earliest recognized region
(position 0) is a shell-shaped call — `matchShellAt` accepts it at the
very start — yet the parser returns the `filesystem.read` call of the
later region at position 69 (no read-shaped region starts earlier), so
the honored call is not taken from the earliest recognized region. -/
theorem C8_earliest_region_counterexample :
    parse_tool_use exToolOutput.data =
      some ⟨"filesystem.read", some "a.txt", none⟩ ∧
    (matchShellAt exToolOutput.data).isSome = true ∧
    ∀ j, j < 69 → matchReadAt (exToolOutput.data.drop j) = none := by
  refine ⟨by decide, by decide, ?_⟩
  exact fun j hj => (findAt_spec matchReadAt exToolOutput.data 69
    "a.txt".data (by decide)).2 j hj

/-- C8 (amended): the parser returns at most one `ToolCall`.  The
primary pattern is taken at its leftmost match and honored when its
params parse as JSON.  When they do not (or no primary match exists),
the three fallback patterns are tried in the fixed order read, write,
shell — each at its own leftmost match anywhere in the answer — so the
honored call need not come from the earliest recognized region. -/
theorem C8_parse_tool_precedence (output : List Char) :
    (∀ i name params,
      findAt matchFullAt output = some (i, (name, params)) →
      (∀ j', j' < i → matchFullAt (output.drop j') = none) ∧
      ∀ jv, jsonParse params = some jv →
        parse_tool_use output =
          some { name := String.mk name, path := jGetStr jv "path".data,
                 content := jGetStr jv "content".data }) ∧
    ((match findAt matchFullAt output with
      | some (_, _, params) => jsonParse params = none
      | none => True) →
      (∀ i path, findAt matchReadAt output = some (i, path) →
        (∀ j', j' < i → matchReadAt (output.drop j') = none) ∧
        parse_tool_use output =
          some ⟨"filesystem.read", some (String.mk path), none⟩) ∧
      (findAt matchReadAt output = none →
        ∀ i pc, findAt matchWriteAt output = some (i, pc) →
          (∀ j', j' < i → matchWriteAt (output.drop j') = none) ∧
          parse_tool_use output =
            some ⟨"filesystem.write", some (String.mk pc.1),
              some (String.mk pc.2)⟩) ∧
      (findAt matchReadAt output = none →
        findAt matchWriteAt output = none →
        ∀ i cmd, findAt matchShellAt output = some (i, cmd) →
          (∀ j', j' < i → matchShellAt (output.drop j') = none) ∧
          parse_tool_use output =
            some ⟨"shell.run", none, some (String.mk cmd)⟩)) := by
  constructor
  · intro i name params hfind
    refine ⟨fun j' hj' =>
      (findAt_spec matchFullAt output i (name, params) hfind).2 j' hj', ?_⟩
    intro jv hjson
    unfold parse_tool_use
    simp only [hfind, hjson]
  · intro hnj
    refine ⟨?_, ?_, ?_⟩
    · intro i path hread
      refine ⟨fun j' hj' =>
        (findAt_spec matchReadAt output i path hread).2 j' hj', ?_⟩
      cases hful : findAt matchFullAt output with
      | none =>
        unfold parse_tool_use
        simp only [hful, hread]
      | some r =>
        obtain ⟨i0, name0, params0⟩ := r
        rw [hful] at hnj
        unfold parse_tool_use
        simp only [hful, hnj, hread]
    · intro hrnone i pc hwrite
      refine ⟨fun j' hj' =>
        (findAt_spec matchWriteAt output i pc hwrite).2 j' hj', ?_⟩
      cases hful : findAt matchFullAt output with
      | none =>
        unfold parse_tool_use
        simp only [hful, hrnone, hwrite]
      | some r =>
        obtain ⟨i0, name0, params0⟩ := r
        rw [hful] at hnj
        unfold parse_tool_use
        simp only [hful, hnj, hrnone, hwrite]
    · intro hrnone hwnone i cmd hshell
      refine ⟨fun j' hj' =>
        (findAt_spec matchShellAt output i cmd hshell).2 j' hj', ?_⟩
      cases hful : findAt matchFullAt output with
      | none =>
        unfold parse_tool_use
        simp only [hful, hrnone, hwnone, hshell]
      | some r =>
        obtain ⟨i0, name0, params0⟩ := r
        rw [hful] at hnj
        unfold parse_tool_use
        simp only [hful, hnj, hrnone, hwnone, hshell]

/-- Witness for C8 (amended): on `exToolOutput` the primary region's
params fail JSON parsing and the parser returns the read call found at
position 69. -/
theorem C8_parse_tool_precedence_witness :
    (match findAt matchFullAt exToolOutput.data with
      | some (_, _, params) => jsonParse params = none
      | none => True) ∧
    parse_tool_use exToolOutput.data =
      some ⟨"filesystem.read", some (String.mk "a.txt".data), none⟩ := by
  have hnj : (match findAt matchFullAt exToolOutput.data with
      | some (_, _, params) => jsonParse params = none
      | none => True) := by
    exact rfl
  exact ⟨hnj, (((C8_parse_tool_precedence exToolOutput.data).2 hnj).1 69
    "a.txt".data (by decide)).2⟩
